import Mathlib

/-!
# Verification of the `lazyimports` laziness engine

A shallow embedding of `src/src/lazyimports.py` (the lazy-import engine:
registry `_LazyImports`, the `lazy_imports` registration scope, the
`LazyPathFinder` resolution hook, the `LazyLoaderWrapper` deferred loader,
the `LazyModule` module proxy and the `LazyObjectProxy` symbol proxy),
together with theorems settling the frozen claims about it.

Python strings are modelled as `List Char` (so that splitting on the first
`':'` and prefix stripping are plain list operations), Python `set[str]`
as `Finset (List Char)`, and the registry's `dict[str, set[str]]` of lazy
symbols as a `Finset` of (module, symbol) pairs — the value content the
dict observes through `__getitem__` / `__iter__`.  One claim (about a
proxy retaining a *reference* to a registry set object) additionally needs
Python's object identity for those set values; a second, heap-indexed
model `RegistryH` captures exactly that and is used only there.
-/

/-- A Python string (module name, symbol name, or `"mod:sym"` spec). -/
abbrev Name := List Char

/-- `value.split(":", 1)[0]`: the part of `value` before the first `':'`. -/
def colonHead (value : Name) : Name :=
  value.takeWhile (· ≠ ':')

/-- `value.split(":", 1)[1]`: the part of `value` after the first `':'`
(`[]` when `value` has no `':'`, matching `obj = None`, and also when the
part after the colon is empty — both are falsy in `if obj:`). -/
def colonTail (value : Name) : Name :=
  (value.dropWhile (· ≠ ':')).tail

/-- The value content of the process-wide `_LazyImports` registry:
`_modules : set[str]`, `__objects : dict[str, set[str]]` (as its set of
(module, symbol) pairs), `_catchall : bool`. -/
structure LazyImports where
  modules : Finset Name
  objects : Finset (Name × Name)
  catchall : Bool
  deriving DecidableEq

namespace LazyImports

/-- The registry `_LazyImports()` as first constructed: both containers
empty and `_catchall = False`. -/
def init : LazyImports := ⟨∅, ∅, false⟩

/-- `__contains__(x)`: `self._catchall or x in self._modules`. -/
def mem (r : LazyImports) (x : Name) : Bool :=
  r.catchall || decide (x ∈ r.modules)

/-- `__getitem__(item)`: `self.__objects.get(item, set())`. -/
def getitem (r : LazyImports) (item : Name) : Finset Name :=
  (r.objects.filter (fun p => p.1 = item)).image Prod.snd

/-- `submodule(name)`: `{mod[len(prefix):] for mod in self._modules if
mod.startswith(prefix)}` with `prefix = name + "."`. -/
def submodule (r : LazyImports) (name : Name) : Finset Name :=
  (r.modules.filter (fun m => (name ++ ['.']).isPrefixOf m)).image
    (fun m => m.drop (name.length + 1))

/-- `clear()`: empties `_modules` and `__objects`; `_catchall` untouched. -/
def clear (r : LazyImports) : LazyImports :=
  { r with modules := ∅, objects := ∅ }

/-- `set_catchall(value)`. -/
def set_catchall (r : LazyImports) (value : Bool) : LazyImports :=
  { r with catchall := value }

/-- `add(value)`: split on the first `':'` when present; always add the
module part to `_modules`; add the symbol to `__objects[module]` only when
truthy (non-empty). -/
def add (r : LazyImports) (value : Name) : LazyImports :=
  let v := if value.contains ':' then colonHead value else value
  let obj := if value.contains ':' then colonTail value else []
  { r with
    modules := insert v r.modules
    objects := if obj = [] then r.objects else insert (v, obj) r.objects }

/-- `update(value)`: `add` each spec in order. -/
def update (r : LazyImports) (values : List Name) : LazyImports :=
  values.foldl add r

/-- The set of entries yielded by `__iter__`: each module name, and
`f"{mod}:{obj}"` for each symbol pair. -/
def iterSet (r : LazyImports) : Finset Name :=
  r.modules ∪ r.objects.image (fun p => p.1 ++ ':' :: p.2)

/-- `L` is a possible enumeration of `__iter__` collected into the
snapshot set `{*lazy_modules}`: Python's set/dict iteration order is
arbitrary, so any list yielding exactly the `iterSet` entries models it. -/
def Enumerates (r : LazyImports) (L : List Name) : Prop :=
  L.toFinset = iterSet r

instance (r : LazyImports) (L : List Name) : Decidable (Enumerates r L) := by
  unfold Enumerates; infer_instance

/-- The mutations the `lazy_imports(*modules, extend=..., catchall=...)`
context manager performs on entry:
`catchall = not modules if catchall is None else catchall`;
`set_catchall(catchall)`; `clear()` unless `extend`; `update(modules)`. -/
def scopeEnter (r : LazyImports) (mods : List Name) (extend : Bool)
    (catchall : Option Bool) : LazyImports :=
  let ca := catchall.getD mods.isEmpty
  let r1 := set_catchall r ca
  let r2 := if extend then r1 else clear r1
  update r2 mods

/-- The `finally` block of `lazy_imports`: `clear()`,
`set_catchall(False)`, `update(original_value)` where `original_value` is
the `{*lazy_modules}` snapshot taken at entry. -/
def scopeExit (r : LazyImports) (snapshot : List Name) : LazyImports :=
  update (set_catchall (clear r) false) snapshot

/-- The module part `add` extracts from a spec string. -/
def specMod (value : Name) : Name :=
  if value.contains ':' then colonHead value else value

/-- The symbol part `add` extracts from a spec string (`[]` when there is
none, or when it is empty — `if obj:` rejects both). -/
def specSym (value : Name) : Name :=
  if value.contains ':' then colonTail value else []

/-- Well-formedness of the registry's value content; every state reachable
through `add`/`update`/`clear`/`set_catchall` from `init` satisfies it:
module names are colon-free (`add` always splits the colon off), and every
symbol pair has a colon-free owner that is itself registered and a
non-empty symbol. -/
def Wf (r : LazyImports) : Prop :=
  (∀ m ∈ r.modules, ':' ∉ m) ∧
  (∀ p ∈ r.objects, p.1 ∈ r.modules ∧ ':' ∉ p.1 ∧ p.2 ≠ [])

instance (r : LazyImports) : Decidable (Wf r) := by
  unfold Wf; infer_instance

end LazyImports

/-- Shorthand for writing concrete names. -/
def nm (s : String) : Name := s.toList

/-! ## The deferred loader and the module proxy

`LazyLoaderWrapper`, `LazyModule` and `_load_module` mutate one module
object in place.  `MState` collects the per-module mutable state those
functions touch; `realExecCount` counts how many times the *wrapped real
initializer* (`self.loader.exec_module(module)`) has run.  Mutation in
place is built into the model: every step function transforms the one
state, never replaces the object.  (`_load_module` also first loads the
module's parent — a different unit's state, modelled separately with the
resolution hook; the per-unit claims quantify over this unit's state.) -/

/-- What `module.__spec__.loader` currently references: the
`LazyLoaderWrapper` (with its `to_be_loaded` flag) or the original real
loader it wraps.  All loaders here expose `exec_module`, as both the
wrapper and modern real loaders do. -/
inductive LoaderSt where
  | wrapper (to_be_loaded : Bool)
  | real
  deriving DecidableEq

/-- The mutable state of one module object and its spec/loader. -/
structure MState where
  /-- `module.__class__ is LazyModule` (reset to `ModuleType` by `_cleanup`). -/
  isLazyClass : Bool
  /-- `module.__spec__ is not None`. -/
  hasSpec : Bool
  /-- `module.__spec__.loader` (`none` models `loader is None`). -/
  loader : Option LoaderSt
  /-- how many times the wrapped real initializer has executed the body. -/
  realExecCount : Nat
  /-- `"lazy+submodules" in module.__dict__`. -/
  hasSubmodAttr : Bool
  /-- `"lazy+callables" in module.__dict__`. -/
  hasCallablesAttr : Bool
  /-- the set stored under `"lazy+submodules"` at construction. -/
  submods : Finset Name
  /-- the set stored under `"lazy+callables"` at construction. -/
  callables : Finset Name
  deriving DecidableEq

/-- `LazyLoaderWrapper._cleanup(module)`: restore `spec.loader` to the
wrapped real loader (only when the spec exists), delete the
`"lazy+submodules"` entry, reset the class to `ModuleType`.  (The
`"lazy+callables"` entry is not touched.) -/
def cleanup (m : MState) : MState :=
  { m with
    loader := if m.hasSpec then some .real else m.loader
    hasSubmodAttr := false
    isLazyClass := false }

/-- `exec_module(module)` invoked on the loader currently referenced by
`module.__spec__.loader`.  On the wrapper: first call flips
`to_be_loaded` and returns without running the real initializer; later
calls `_cleanup` then delegate to the wrapped initializer on the same
object.  On the real loader it simply executes the body. -/
def exec_module (m : MState) : MState :=
  match m.loader with
  | some (.wrapper b) =>
      if b then { m with loader := some (.wrapper false) }
      else
        let c := cleanup m
        { c with realExecCount := c.realExecCount + 1 }
  | some .real => { m with realExecCount := m.realExecCount + 1 }
  | none => m

/-- `_load_module(module)` restricted to this unit: no-op unless the
object is still a `LazyModule`; no-op when the spec or its loader is
missing; otherwise invoke the loader's `exec_module`. -/
def load_module (m : MState) : MState :=
  if !m.isLazyClass then m
  else if !m.hasSpec then m
  else
    match m.loader with
    | none => m
    | some _ => exec_module m

/-- `LazyLoaderWrapper.create_module` + `LazyModule.__init__`: a fresh
proxy whose child-unit and lazy-symbol sets are computed from the
registry `r` at this moment, with the wrapper installed as its loader. -/
def createModule (r : LazyImports) (name : Name) : MState :=
  { isLazyClass := true
    hasSpec := true
    loader := some (.wrapper true)
    realExecCount := 0
    hasSubmodAttr := true
    hasCallablesAttr := true
    submods := r.submodule name
    callables := r.getitem name }

/-- A lazy import as the host machinery performs it: create the module,
then call `exec_module` once (the call the wrapper absorbs). -/
def importLazy (r : LazyImports) (name : Name) : MState :=
  exec_module (createModule r name)

/-- The structural/introspective markers `LazyModule.__getattr__` fails
on immediately: `__path__`, `__file__`, `__cached__`. -/
def structuralMarkers : List Name := [nm "__path__", nm "__file__", nm "__cached__"]

/-- The documentation slot, diverted by `LazyModule.__getattribute__`
into the `__getattr__` fallback (`raise AttributeError` to trigger it). -/
def docName : Name := nm "__doc__"

/-- Outcome of an attribute read that reaches the lazy fallback. -/
inductive AttrOutcome where
  /-- `AttributeError` raised without loading. -/
  | notFound
  /-- a `LazyObjectProxy(self, item)` returned without loading. -/
  | symProxy
  /-- `_load_module(self)` then a normal read on the loaded object. -/
  | loads
  deriving DecidableEq

/-- The decision procedure of `LazyModule.__getattr__` (also reached for
`__doc__`, which `__getattribute__` always diverts here). -/
def getattrOutcome (m : MState) (item : Name) : AttrOutcome :=
  if item ∈ structuralMarkers then .notFound
  else if item ∈ m.submods then .notFound
  else if item ∈ m.callables then .symProxy
  else .loads

/-- An attribute read reaching the fallback: outcome plus its effect on
the module state (only the `loads` case touches it). -/
def readAttr (m : MState) (item : Name) : AttrOutcome × MState :=
  match getattrOutcome m item with
  | .loads => (.loads, load_module m)
  | o => (o, m)

/-- The accesses and triggers a module proxy can receive:
attribute reads reaching the fallback, `__dir__` (forces a load), a
direct force-load, attribute writes that force a load first
(non-structural, non-module values), and writes that pass through
(structural slots or module values). -/
inductive Event where
  | getattrE (item : Name)
  | dirE
  | forceE
  | setattrLoad
  | setattrPass
  deriving DecidableEq

/-- Effect of one access/trigger on the module state. -/
def stepEvent (m : MState) (e : Event) : MState :=
  match e with
  | .getattrE item => (readAttr m item).2
  | .dirE | .forceE | .setattrLoad => load_module m
  | .setattrPass => m

/-! ## The resolution hook `LazyPathFinder` -/

/-- What `sys.modules.get(parent)` can yield for our purposes: an
unloaded `LazyModule` proxy, some other (truthy) module, or nothing. -/
inductive SysEntry where
  | lazyMod
  | otherMod
  deriving DecidableEq

/-- `".".join(fullname.split(".")[:-1])`. -/
def parentName (n : Name) : Name :=
  List.intercalate ['.'] ((n.splitOn '.').dropLast)

/-- Whether `_load_parent_module(fullname)` force-loads the parent: the
parent name is non-empty, present in `sys.modules`, and still a
`LazyModule` proxy. -/
def load_parent_triggers (sysm : Name → Option SysEntry) (fullname : Name) : Bool :=
  if parentName fullname = [] then false
  else
    match sysm (parentName fullname) with
    | some .lazyMod => true
    | _ => false

/-- A loader as the default `PathFinder` discovery returns it, possibly
wrapped by `LazyLoaderWrapper(spec.loader)`. -/
inductive PLoader where
  | base (id : Nat)
  | wrapped (inner : PLoader)
  deriving DecidableEq

/-- The spec descriptor: just its `loader` slot matters here. -/
structure MSpec where
  loaderL : Option PLoader
  deriving DecidableEq

/-- `LazyPathFinder.find_spec`: the returned descriptor (or `none` to
decline) paired with whether a parent force-load was triggered.  `finder`
is the default `PathFinder().find_spec` discovery step. -/
def find_spec (reg : LazyImports) (finder : Name → Option MSpec)
    (sysm : Name → Option SysEntry) (fullname : Name) :
    Option MSpec × Bool :=
  if reg.mem fullname then
    match finder fullname with
    | none => (none, false)
    | some spec =>
      match spec.loaderL with
      | none => (none, false)
      | some l => (some ⟨some (.wrapped l)⟩, false)
  else (none, load_parent_triggers sysm fullname)

/-! ## The symbol proxy `LazyObjectProxy`

Operations carry their extra operands as values of the abstract value
type `V`; `interp` gives the host semantics of applying an operation to
the real target object.  The proxy's dunder methods either forward to
`self.__obj` (resolve then delegate) or — for `__rshift__`, `__lshift__`,
`__and__`, `__or__`, `__xor__` — re-invoke themselves on `self`, which is
the same call again; `proxyOp` takes fuel, and exhausting every fuel
bound models that non-termination (Python: unbounded recursion). -/

/-- The operations of the proxy's forwarding interface (one constructor
per dunder family used in the source; operands of the abstract value
type `V`). -/
inductive POp (V : Type) where
  | getattrP (name : Name)
  | eqP (other : V) | ltP (other : V)
  | addP (other : V) | subP (other : V) | mulP (other : V)
  | rshiftP (other : V) | lshiftP (other : V)
  | andP (other : V) | orP (other : V) | xorP (other : V)
  | negP | strP | hashP | lenP | containsP (item : V) | iterP
  | callP (args : List V) | enterP | exitP | copyP

/-- Whether the source's method for this operation forwards to
`self.__obj`, or re-invokes itself on `self` (`return self >> other`
and the four analogous shift/bitwise methods). -/
def selfRecursive {V : Type} : POp V → Bool
  | .rshiftP _ | .lshiftP _ | .andP _ | .orP _ | .xorP _ => true
  | _ => false

/-- The state of one `LazyObjectProxy`: the owning module's state, the
bound symbol name, and the cached resolved target (`none` = `Undefined`). -/
structure SymProxy (V : Type) where
  mod : MState
  symName : Name
  lobj : Option V

/-- `LazyObjectProxy(module, name)`: construction touches nothing. -/
def mkSymProxy {V : Type} (m : MState) (name : Name) : SymProxy V :=
  ⟨m, name, none⟩

/-- The `__obj` property: first use force-loads the owning module and
caches `getattr(module, name)` (the binding the loaded module gives the
name); later uses return the cache. -/
def resolveObj {V : Type} (binding : Name → V) (p : SymProxy V) : V × SymProxy V :=
  match p.lobj with
  | some v => (v, p)
  | none =>
    let m := load_module p.mod
    let v := binding p.symName
    (v, { p with mod := m, lobj := some v })

/-- One operation invoked on the proxy: forwarding methods resolve
`__obj` and apply the host semantics `interp` to the real target;
the five self-recursive methods call themselves again (fuel models the
recursion budget — `none` means no amount of fuel finishes). -/
def proxyOp {V : Type} (binding : Name → V) (interp : POp V → V → V) :
    Nat → SymProxy V → POp V → Option (V × SymProxy V)
  | 0, _, _ => none
  | fuel + 1, p, op =>
    if selfRecursive op then proxyOp binding interp fuel p op
    else
      let (v, p') := resolveObj binding p
      some (interp op v, p')

/-! ## Reference semantics for the registry's symbol sets

`_LazyImports.__getitem__` returns `self.__objects.get(item, set())`:
the dict's own `set` object when the key is present.  `LazyModule.__init__`
stores that object, and `add` later mutates the same object through
`setdefault(...).add(...)`.  `Heap` gives those set objects identities. -/

/-- A heap of Python `set[str]` objects, addressed by ids. -/
structure Heap where
  store : Nat → Finset Name
  nextId : Nat

/-- Allocate a fresh set object. -/
def Heap.alloc (h : Heap) (s : Finset Name) : Nat × Heap :=
  (h.nextId, ⟨fun n => if n = h.nextId then s else h.store n, h.nextId + 1⟩)

/-- `someSet.add(x)`: mutate the set object with id `id` in place. -/
def Heap.mutateInsert (h : Heap) (id : Nat) (x : Name) : Heap :=
  ⟨fun n => if n = id then insert x (h.store n) else h.store n, h.nextId⟩

/-- The registry with `__objects` as a dict from module name to the id of
its set object. -/
structure RegistryH where
  modulesH : Finset Name
  objectsH : List (Name × Nat)
  catchallH : Bool

/-- The fresh registry and empty heap. -/
def RegistryH.initH : RegistryH × Heap :=
  (⟨∅, [], false⟩, ⟨fun _ => ∅, 0⟩)

/-- `add(value)` under reference semantics: `setdefault` hands back the
*existing* set object when the key is present and `.add` mutates it in
place; otherwise a fresh set object is allocated and entered. -/
def RegistryH.addH (r : RegistryH) (h : Heap) (value : Name) : RegistryH × Heap :=
  if LazyImports.specSym value = [] then
    ({ r with modulesH := insert (LazyImports.specMod value) r.modulesH }, h)
  else
    match r.objectsH.lookup (LazyImports.specMod value) with
    | some id =>
      ({ r with modulesH := insert (LazyImports.specMod value) r.modulesH },
        h.mutateInsert id (LazyImports.specSym value))
    | none =>
      ({ r with
          modulesH := insert (LazyImports.specMod value) r.modulesH
          objectsH := (LazyImports.specMod value, h.nextId) :: r.objectsH },
        (h.alloc {LazyImports.specSym value}).2)

/-- `clear()`: the dict forgets its entries; the set objects live on in
the heap, now unreachable from the registry. -/
def RegistryH.clearH (r : RegistryH) : RegistryH :=
  { r with modulesH := ∅, objectsH := [] }

/-- `__getitem__(item)` as evaluated during `LazyModule.__init__`: the
proxy stores the returned set *object* — the dict's value when present
(shared!), else a brand-new empty `set()`. -/
def RegistryH.getitemRef (r : RegistryH) (h : Heap) (item : Name) : Nat × Heap :=
  match r.objectsH.lookup item with
  | some id => (id, h)
  | none => h.alloc ∅

/-- The registry mutations that can happen after a proxy exists. -/
inductive RegOp where
  | addO (value : Name)
  | clearO

/-- Apply one mutation. -/
def stepReg : RegistryH × Heap → RegOp → RegistryH × Heap
  | (r, h), .addO v => r.addH h v
  | (r, h), .clearO => (r.clearH, h)

/-- The two phases a lazily imported module passes through, as an
invariant over access/trigger sequences: the unloaded proxy (wrapper
disarmed by the initial import, body never run) and the loaded module
(class restored, body run exactly once). -/
def PhaseInv (m : MState) : Prop :=
  (m.isLazyClass = true ∧ m.hasSpec = true ∧
      m.loader = some (LoaderSt.wrapper false) ∧ m.realExecCount = 0) ∨
  (m.isLazyClass = false ∧ m.realExecCount = 1)

/-- Every set-object id the registry dict references was allocated at or
after cursor position `lo` and is live; the cursor is at or past `lo`. -/
def HeapIdsFrom (lo : Nat) (r : RegistryH) (h : Heap) : Prop :=
  lo ≤ h.nextId ∧ ∀ p ∈ r.objectsH, lo ≤ p.2 ∧ p.2 < h.nextId

theorem takeWhile_append_cons {p : Char → Bool} (m : Name) (x : Char) (o : Name)
    (hm : ∀ a ∈ m, p a) (hx : p x = false) :
    (m ++ x :: o).takeWhile p = m := by
  induction m with
  | nil => simp [List.takeWhile, hx]
  | cons a m ih =>
    have ha : p a = true := hm a (List.mem_cons_self a m)
    simp only [List.cons_append, List.takeWhile_cons, ha]
    simp [ih fun b hb => hm b (List.mem_cons_of_mem a hb)]

theorem dropWhile_append_cons {p : Char → Bool} (m : Name) (x : Char) (o : Name)
    (hm : ∀ a ∈ m, p a) (hx : p x = false) :
    (m ++ x :: o).dropWhile p = x :: o := by
  induction m with
  | nil => simp [List.dropWhile, hx]
  | cons a m ih =>
    have ha : p a = true := hm a (List.mem_cons_self a m)
    simp only [List.cons_append, List.dropWhile_cons, ha]
    exact ih fun b hb => hm b (List.mem_cons_of_mem a hb)

theorem contains_eq_false_of_not_mem {m : Name} {c : Char} (h : c ∉ m) :
    m.contains c = false := by
  simpa using h

theorem specMod_of_colonfree {m : Name} (h : ':' ∉ m) :
    LazyImports.specMod m = m := by
  unfold LazyImports.specMod
  rw [contains_eq_false_of_not_mem h]
  rfl

theorem specSym_of_colonfree {m : Name} (h : ':' ∉ m) :
    LazyImports.specSym m = [] := by
  unfold LazyImports.specSym
  rw [contains_eq_false_of_not_mem h]
  rfl

theorem all_ne_colon {m : Name} (hm : ':' ∉ m) :
    ∀ a ∈ m, (fun x => decide (x ≠ ':')) a = true := by
  intro a ha
  simp only [decide_eq_true_eq]
  intro h
  exact hm (h ▸ ha)

theorem specMod_pair {m o : Name} (hm : ':' ∉ m) :
    LazyImports.specMod (m ++ ':' :: o) = m := by
  have hc : (m ++ ':' :: o).contains ':' = true := by simp
  unfold LazyImports.specMod colonHead
  rw [hc]
  simp only [if_true]
  exact takeWhile_append_cons m ':' o (all_ne_colon hm) (by decide)

theorem specSym_pair {m o : Name} (hm : ':' ∉ m) :
    LazyImports.specSym (m ++ ':' :: o) = o := by
  have hc : (m ++ ':' :: o).contains ':' = true := by simp
  unfold LazyImports.specSym colonTail
  rw [hc]
  simp only [if_true]
  rw [dropWhile_append_cons m ':' o (all_ne_colon hm) (by decide)]
  rfl

namespace LazyImports

theorem add_modules (r : LazyImports) (v : Name) :
    (add r v).modules = insert (specMod v) r.modules := rfl

theorem add_objects (r : LazyImports) (v : Name) :
    (add r v).objects =
      if specSym v = [] then r.objects
      else insert (specMod v, specSym v) r.objects := rfl

theorem add_catchall (r : LazyImports) (v : Name) :
    (add r v).catchall = r.catchall := rfl

theorem update_catchall (r : LazyImports) (L : List Name) :
    (update r L).catchall = r.catchall := by
  induction L generalizing r with
  | nil => rfl
  | cons v L ih => simpa [update, List.foldl_cons] using ih (add r v)

theorem update_cons (r : LazyImports) (v : Name) (L : List Name) :
    update r (v :: L) = update (add r v) L := rfl

theorem update_modules (r : LazyImports) (L : List Name) :
    (update r L).modules = r.modules ∪ (L.map specMod).toFinset := by
  induction L generalizing r with
  | nil => simp [update]
  | cons v L ih =>
    rw [update_cons, ih, add_modules]
    simp only [List.map_cons, List.toFinset_cons]
    rw [Finset.insert_union, Finset.union_insert]

theorem update_objects (r : LazyImports) (L : List Name) :
    (update r L).objects = r.objects ∪
      ((L.filter (fun v => !decide (specSym v = []))).map
        (fun v => (specMod v, specSym v))).toFinset := by
  induction L generalizing r with
  | nil => simp [update]
  | cons v L ih =>
    rw [update_cons, ih, add_objects, List.filter_cons]
    by_cases h : specSym v = []
    · rw [if_pos h]
      have hd : (!decide (specSym v = [])) = false := by simp [h]
      rw [hd]
      simp only [Bool.false_eq_true, if_false]
    · rw [if_neg h]
      have hd : (!decide (specSym v = [])) = true := by simp [h]
      rw [hd]
      simp only [if_true, List.map_cons, List.toFinset_cons]
      rw [Finset.insert_union, Finset.union_insert]

theorem list_toFinset_map {α β : Type} [DecidableEq α] [DecidableEq β]
    (f : α → β) (l : List α) :
    (l.map f).toFinset = l.toFinset.image f := by
  ext b
  simp

theorem specMod_colonfree (v : Name) : ':' ∉ specMod v := by
  unfold specMod
  by_cases h : v.contains ':' = true
  · rw [if_pos h]
    intro hm
    have := List.mem_takeWhile_imp hm
    simp at this
  · rw [if_neg h]
    intro hm
    exact h (by simpa using hm)

theorem wf_init : Wf init := by
  constructor <;> intro x hx <;> simp [init] at hx

theorem wf_clear (r : LazyImports) : Wf (clear r) := by
  constructor <;> intro x hx <;> simp [clear] at hx

theorem wf_set_catchall (r : LazyImports) (b : Bool) (hr : Wf r) :
    Wf (set_catchall r b) := hr

theorem wf_add (r : LazyImports) (v : Name) (hr : Wf r) : Wf (add r v) := by
  constructor
  · intro m hm
    rw [add_modules] at hm
    rcases Finset.mem_insert.mp hm with rfl | hm
    · exact specMod_colonfree v
    · exact hr.1 m hm
  · intro p hp
    rw [add_objects] at hp
    rw [add_modules]
    by_cases h : specSym v = []
    · rw [if_pos h] at hp
      obtain ⟨h1, h2, h3⟩ := hr.2 p hp
      exact ⟨Finset.mem_insert_of_mem h1, h2, h3⟩
    · rw [if_neg h] at hp
      rcases Finset.mem_insert.mp hp with rfl | hp
      · exact ⟨Finset.mem_insert_self _ _, specMod_colonfree v, h⟩
      · obtain ⟨h1, h2, h3⟩ := hr.2 p hp
        exact ⟨Finset.mem_insert_of_mem h1, h2, h3⟩

theorem wf_update (r : LazyImports) (L : List Name) (hr : Wf r) :
    Wf (update r L) := by
  induction L generalizing r with
  | nil => exact hr
  | cons v L ih => exact ih (add r v) (wf_add r v hr)

theorem replay_modules (r : LazyImports) (hr : Wf r) (L : List Name)
    (hL : Enumerates r L) (r0 : LazyImports) (h0 : r0.modules = ∅) :
    (update r0 L).modules = r.modules := by
  rw [update_modules, h0, Finset.empty_union, list_toFinset_map, hL]
  unfold iterSet
  rw [Finset.image_union]
  have h1 : r.modules.image specMod = r.modules := by
    rw [Finset.image_congr (g := id) ?_, Finset.image_id]
    intro m hm
    exact specMod_of_colonfree (hr.1 m (by simpa using hm))
  have h2 : (r.objects.image fun p => p.1 ++ ':' :: p.2).image specMod ⊆ r.modules := by
    intro x hx
    rw [Finset.mem_image] at hx
    obtain ⟨y, hy, rfl⟩ := hx
    rw [Finset.mem_image] at hy
    obtain ⟨p, hp, rfl⟩ := hy
    obtain ⟨hp1, hp2, _⟩ := hr.2 p hp
    rw [specMod_pair hp2]
    exact hp1
  rw [h1]
  exact Finset.union_eq_left.mpr h2

theorem replay_objects (r : LazyImports) (hr : Wf r) (L : List Name)
    (hL : Enumerates r L) (r0 : LazyImports) (h0 : r0.objects = ∅) :
    (update r0 L).objects = r.objects := by
  rw [update_objects, h0, Finset.empty_union, list_toFinset_map,
    List.toFinset_filter, hL]
  ext q
  simp only [Finset.mem_image, Finset.mem_filter]
  constructor
  · rintro ⟨v, ⟨hv, hne⟩, rfl⟩
    unfold iterSet at hv
    rw [Finset.mem_union] at hv
    rcases hv with hv | hv
    · exfalso
      have := specSym_of_colonfree (hr.1 v hv)
      simp [this] at hne
    · rw [Finset.mem_image] at hv
      obtain ⟨p, hp, rfl⟩ := hv
      obtain ⟨_, hp2, _⟩ := hr.2 p hp
      rw [specMod_pair hp2, specSym_pair hp2]
      exact hp
  · intro hq
    obtain ⟨_, hp2, hne⟩ := hr.2 q hq
    refine ⟨q.1 ++ ':' :: q.2, ⟨?_, ?_⟩, ?_⟩
    · unfold iterSet
      rw [Finset.mem_union, Finset.mem_image]
      exact Or.inr ⟨q, hq, rfl⟩
    · rw [specSym_pair hp2]
      simpa using hne
    · rw [specMod_pair hp2, specSym_pair hp2]

/-- C6 (amended): `submodule(name)` strips the `name + "."` prefix from
every registered module that starts with it: `s` is returned exactly when
`name + "." + s` is a registered lazy module — with no restriction on `s`
containing further dots, so deeper descendants contribute entries too. -/
theorem mem_submodule_iff (r : LazyImports) (N s : Name) :
    s ∈ submodule r N ↔ (N ++ '.' :: s) ∈ r.modules := by
  unfold submodule
  simp only [Finset.mem_image, Finset.mem_filter]
  constructor
  · rintro ⟨m, ⟨hm, hpre⟩, rfl⟩
    have hp : (N ++ ['.']) <+: m := List.isPrefixOf_iff_prefix.mp hpre
    obtain ⟨t, ht⟩ := hp
    subst ht
    have hlen : (N ++ ['.']).length = N.length + 1 := by simp
    rw [← hlen, List.drop_left]
    have : N ++ '.' :: t = (N ++ ['.']) ++ t := by simp
    rw [this]
    exact hm
  · intro hm
    have hsplit : N ++ '.' :: s = (N ++ ['.']) ++ s := by simp
    refine ⟨N ++ '.' :: s, ⟨hm, ?_⟩, ?_⟩
    · exact List.isPrefixOf_iff_prefix.mpr ⟨s, by rw [hsplit]⟩
    · rw [hsplit]
      have hlen : (N ++ ['.']).length = N.length + 1 := by simp
      rw [← hlen, List.drop_left]

/-- C6 counterexample: with `"pkg.a.b"` registered, `submodule("pkg")`
contains `"a.b"`, an entry with a further dot — a deeper descendant does
contribute an entry, contrary to the claim that only immediate children
(dot-free short names) are returned. -/
theorem submodule_contains_deep_descendant :
    ['a', '.', 'b'] ∈
        submodule (add init ['p', 'k', 'g', '.', 'a', '.', 'b']) ['p', 'k', 'g'] ∧
      '.' ∈ ['a', '.', 'b'] := by decide

/-- C10: replaying every entry yielded by `__iter__` (each lazy module
name, each `"unit:symbol"` pair) through `add` into an emptied registry
reproduces exactly the original module set and symbol map — for every
well-formed (reachable) registry state and every enumeration order. -/
theorem enumerate_replay_roundtrip (r : LazyImports) (hr : Wf r)
    (L : List Name) (hL : Enumerates r L) :
    (update (clear r) L).modules = r.modules ∧
      (update (clear r) L).objects = r.objects :=
  ⟨replay_modules r hr L hL _ rfl, replay_objects r hr L hL _ rfl⟩

/-- Witness for C10 at a concrete registry (`a` lazy module, symbol spec
`b:c`) and a concrete enumeration order. -/
theorem enumerate_replay_roundtrip_witness :
    (Wf (update init [['a'], ['b', ':', 'c']]) ∧
        Enumerates (update init [['a'], ['b', ':', 'c']])
          [['b', ':', 'c'], ['a'], ['b']]) ∧
      (update (clear (update init [['a'], ['b', ':', 'c']]))
            [['b', ':', 'c'], ['a'], ['b']]).modules =
          (update init [['a'], ['b', ':', 'c']]).modules ∧
        (update (clear (update init [['a'], ['b', ':', 'c']]))
              [['b', ':', 'c'], ['a'], ['b']]).objects =
            (update init [['a'], ['b', ':', 'c']]).objects :=
  ⟨⟨by decide, by decide⟩,
    enumerate_replay_roundtrip _ (by decide) _ (by decide)⟩

/-- C3 (amended): leaving the `lazy_imports` scope — via the `finally`
block, hence also after an exception — restores the module set and the
symbol map exactly as they were at entry, whatever state `r'` the scope
body left behind; but the catch-all flag is unconditionally reset to
`False` rather than restored to its entry value. -/
theorem scopeExit_restores_modules_and_symbols (r r' : LazyImports)
    (hr : Wf r) (L : List Name) (hL : Enumerates r L) :
    (scopeExit r' L).modules = r.modules ∧
      (scopeExit r' L).objects = r.objects ∧
      (scopeExit r' L).catchall = false := by
  unfold scopeExit
  refine ⟨replay_modules r hr L hL _ rfl, replay_objects r hr L hL _ rfl, ?_⟩
  rw [update_catchall]
  rfl

/-- Witness for the amended C3 at a concrete entry state, scope-body
state and snapshot. -/
theorem scopeExit_restores_modules_and_symbols_witness :
    (Wf (add init ['x']) ∧ Enumerates (add init ['x']) [['x']]) ∧
      (scopeExit (add init ['y']) [['x']]).modules = (add init ['x']).modules ∧
        (scopeExit (add init ['y']) [['x']]).objects = (add init ['x']).objects ∧
        (scopeExit (add init ['y']) [['x']]).catchall = false :=
  ⟨⟨by decide, by decide⟩,
    scopeExit_restores_modules_and_symbols _ (add init ['y']) (by decide) _
      (by decide)⟩

/-- C3 counterexample: a registry with the catch-all flag set (as an outer
`lazy_imports()` scope leaves it) is snapshotted as the empty entry set;
entering and exiting a nested scope then leaves the catch-all flag
`False`, not the `True` that held at the nested scope's entry — the
(lazyModules, lazySymbols, catchAll) triple is not restored. -/
theorem scopeExit_drops_catchall :
    Enumerates (set_catchall init true) [] ∧
      (set_catchall init true).catchall = true ∧
      (scopeExit (scopeEnter (set_catchall init true) [['x']] false none)
            []).catchall = false := by decide

/-- C8: a name is lazy iff the catch-all flag is set or it is an explicit
member of the module set; entering the scope with zero names and no
explicit `catchall` argument makes every name lazy; entering with explicit
colon-free names and `catchall=False` (and the default `extend=False`)
makes exactly the supplied names lazy. -/
theorem mem_catchall_and_scope_sets (r : LazyImports) (x : Name)
    (mods : List Name) (ext : Bool) (hmods : ∀ v ∈ mods, ':' ∉ v) :
    (mem r x = true ↔ (r.catchall = true ∨ x ∈ r.modules)) ∧
      mem (scopeEnter r [] ext none) x = true ∧
      (mem (scopeEnter r mods false (some false)) x = true ↔ x ∈ mods) := by
  refine ⟨?_, ?_, ?_⟩
  · simp [mem, Bool.or_eq_true]
  · cases ext <;>
      simp [scopeEnter, mem, update, set_catchall, clear]
  · have hmap : mods.map specMod = mods := by
      rw [List.map_congr_left fun v hv => specMod_of_colonfree (hmods v hv)]
      exact List.map_id mods
    unfold scopeEnter
    rw [mem, update_catchall, update_modules, hmap]
    simp [clear, set_catchall]

/-- Witness for C8 at a concrete registry, name and spec list. -/
theorem mem_catchall_and_scope_sets_witness :
    (∀ v ∈ [['a'], ['b']], ':' ∉ v) ∧
      ((mem (add init ['a']) ['a'] = true ↔
          ((add init ['a']).catchall = true ∨ ['a'] ∈ (add init ['a']).modules)) ∧
        mem (scopeEnter (add init ['a']) [] true none) ['a'] = true ∧
        (mem (scopeEnter (add init ['a']) [['a'], ['b']] false (some false))
              ['a'] = true ↔
          ['a'] ∈ [['a'], ['b']])) :=
  ⟨by decide, mem_catchall_and_scope_sets (add init ['a']) ['a'] [['a'], ['b']]
    true (by decide)⟩

end LazyImports

theorem load_module_of_loaded (m : MState) (h : m.isLazyClass = false) :
    load_module m = m := by
  simp [load_module, h]

theorem stepEvent_of_loaded (m : MState) (h : m.isLazyClass = false)
    (e : Event) : stepEvent m e = m := by
  cases e with
  | getattrE item =>
    unfold stepEvent readAttr
    cases hg : getattrOutcome m item <;>
      simp [hg, load_module_of_loaded m h]
  | dirE => exact load_module_of_loaded m h
  | forceE => exact load_module_of_loaded m h
  | setattrLoad => exact load_module_of_loaded m h
  | setattrPass => rfl

theorem load_module_of_armed (m : MState) (h1 : m.isLazyClass = true)
    (h2 : m.hasSpec = true) (h3 : m.loader = some (LoaderSt.wrapper false)) :
    load_module m =
      { m with
        loader := some LoaderSt.real
        hasSubmodAttr := false
        isLazyClass := false
        realExecCount := m.realExecCount + 1 } := by
  unfold load_module
  rw [h1, h2, h3]
  simp only [Bool.not_true, Bool.false_eq_true, if_false]
  unfold exec_module
  rw [h3]
  simp [cleanup, h2]

theorem phaseInv_importLazy (r : LazyImports) (name : Name) :
    PhaseInv (importLazy r name) :=
  Or.inl ⟨rfl, rfl, rfl, rfl⟩

theorem phaseInv_load_module (m : MState) (hm : PhaseInv m) :
    PhaseInv (load_module m) := by
  rcases hm with ⟨h1, h2, h3, h4⟩ | ⟨h1, h2⟩
  · rw [load_module_of_armed m h1 h2 h3]
    exact Or.inr ⟨rfl, by simp [h4]⟩
  · rw [load_module_of_loaded m h1]
    exact Or.inr ⟨h1, h2⟩

theorem phaseInv_stepEvent (m : MState) (hm : PhaseInv m) (e : Event) :
    PhaseInv (stepEvent m e) := by
  cases e with
  | getattrE item =>
    unfold stepEvent readAttr
    cases hg : getattrOutcome m item <;>
      simp [hg] <;>
      first
        | exact hm
        | exact phaseInv_load_module m hm
  | dirE => exact phaseInv_load_module m hm
  | forceE => exact phaseInv_load_module m hm
  | setattrLoad => exact phaseInv_load_module m hm
  | setattrPass => exact hm

theorem phaseInv_foldl (m : MState) (hm : PhaseInv m) (L : List Event) :
    PhaseInv (L.foldl stepEvent m) := by
  induction L generalizing m with
  | nil => exact hm
  | cons e L ih => exact ih (stepEvent m e) (phaseInv_stepEvent m hm e)

theorem phaseInv_count_le_one (m : MState) (hm : PhaseInv m) :
    m.realExecCount ≤ 1 := by
  rcases hm with ⟨_, _, _, h4⟩ | ⟨_, h2⟩
  · rw [h4]
    exact Nat.zero_le 1
  · exact Nat.le_of_eq h2

/-- C2 (amended): construction of a module proxy never runs the real
initializer; across any sequence of attribute accesses and force-load
triggers it runs at most once; the proxy→loaded transition is one-way
(once loaded, every further access or trigger is a no-op on the state)
and repeat force-loads are idempotent; from the unloaded state, the first
access that *forces a load* runs it exactly once — but that first forcing
access is not simply "the first access that is not a not-found case":
lazy-symbol accesses are not not-found cases and still load nothing. -/
theorem module_initializer_at_most_once (r : LazyImports) (name : Name)
    (L : List Event) (e : Event) :
    (importLazy r name).realExecCount = 0 ∧
      (L.foldl stepEvent (importLazy r name)).realExecCount ≤ 1 ∧
      ((L.foldl stepEvent (importLazy r name)).isLazyClass = false →
        stepEvent (L.foldl stepEvent (importLazy r name)) e =
          L.foldl stepEvent (importLazy r name)) ∧
      ((L.foldl stepEvent (importLazy r name)).isLazyClass = true →
        (load_module (L.foldl stepEvent (importLazy r name))).realExecCount = 1 ∧
          (load_module (L.foldl stepEvent (importLazy r name))).isLazyClass
            = false) ∧
      load_module (load_module (L.foldl stepEvent (importLazy r name))) =
        load_module (L.foldl stepEvent (importLazy r name)) := by
  have hinv := phaseInv_foldl _ (phaseInv_importLazy r name) L
  set s := L.foldl stepEvent (importLazy r name) with hs
  refine ⟨rfl, phaseInv_count_le_one s hinv, ?_, ?_, ?_⟩
  · intro h
    exact stepEvent_of_loaded s h e
  · intro h
    rcases hinv with ⟨h1, h2, h3, h4⟩ | ⟨h1, _⟩
    · rw [load_module_of_armed s h1 h2 h3]
      exact ⟨by simp [h4], rfl⟩
    · rw [h] at h1
      exact absurd h1 (by simp)
  · rcases hinv with ⟨h1, h2, h3, _⟩ | ⟨h1, _⟩
    · rw [load_module_of_armed s h1 h2 h3]
      exact load_module_of_loaded _ rfl
    · rw [load_module_of_loaded s h1, load_module_of_loaded s h1]

/-- Witness for the amended C2: a lazily imported `pkg`, one force-load,
then a further trigger. -/
theorem module_initializer_at_most_once_witness :
    (importLazy (LazyImports.add LazyImports.init (nm "pkg"))
          (nm "pkg")).realExecCount = 0 ∧
      ([Event.forceE].foldl stepEvent
            (importLazy (LazyImports.add LazyImports.init (nm "pkg"))
              (nm "pkg"))).realExecCount ≤ 1 ∧
      (([Event.forceE].foldl stepEvent
              (importLazy (LazyImports.add LazyImports.init (nm "pkg"))
                (nm "pkg"))).isLazyClass = false →
        stepEvent
            ([Event.forceE].foldl stepEvent
              (importLazy (LazyImports.add LazyImports.init (nm "pkg"))
                (nm "pkg"))) Event.dirE =
          [Event.forceE].foldl stepEvent
            (importLazy (LazyImports.add LazyImports.init (nm "pkg"))
              (nm "pkg"))) ∧
      (([Event.forceE].foldl stepEvent
              (importLazy (LazyImports.add LazyImports.init (nm "pkg"))
                (nm "pkg"))).isLazyClass = true →
        (load_module
              ([Event.forceE].foldl stepEvent
                (importLazy (LazyImports.add LazyImports.init (nm "pkg"))
                  (nm "pkg")))).realExecCount = 1 ∧
          (load_module
                ([Event.forceE].foldl stepEvent
                  (importLazy (LazyImports.add LazyImports.init (nm "pkg"))
                    (nm "pkg")))).isLazyClass = false) ∧
      load_module
          (load_module
            ([Event.forceE].foldl stepEvent
              (importLazy (LazyImports.add LazyImports.init (nm "pkg"))
                (nm "pkg")))) =
        load_module
          ([Event.forceE].foldl stepEvent
            (importLazy (LazyImports.add LazyImports.init (nm "pkg"))
              (nm "pkg"))) :=
  module_initializer_at_most_once (LazyImports.add LazyImports.init (nm "pkg"))
    (nm "pkg") [Event.forceE] Event.dirE

/-- C2 counterexample: on a proxy whose unit declares the lazy symbol
`World`, the very first access — the read of `World` — is not a
"not found"-triggering case (it yields a symbol proxy), yet the real
initializer does not run on it and the module stays a proxy; the claim's
"runs exactly once, on the first access that is not itself a not-found
case" fails on this access. -/
theorem symbol_access_runs_no_initializer :
    getattrOutcome
        (importLazy (LazyImports.add LazyImports.init (nm "pkg:World"))
          (nm "pkg")) (nm "World") ≠ AttrOutcome.notFound ∧
      (stepEvent
          (importLazy (LazyImports.add LazyImports.init (nm "pkg:World"))
            (nm "pkg"))
          (Event.getattrE (nm "World"))).realExecCount = 0 ∧
      (stepEvent
          (importLazy (LazyImports.add LazyImports.init (nm "pkg:World"))
            (nm "pkg"))
          (Event.getattrE (nm "World"))).isLazyClass = true := by decide

/-- C7 (amended): the first `exec_module` invocation (the one the import
machinery makes) only disarms the wrapper and returns — the real
initializer has not run and the unit stays in full proxy form; every
subsequent invocation restores the spec's loader to the original real
loader, strips the child-unit bookkeeping attribute, restores the
concrete (non-proxy) class and then runs the wrapped initializer on the
same, in-place-mutated object — but the lazy-symbol bookkeeping
attribute `lazy+callables` is left on the object, so the internal
bookkeeping is only partially stripped. -/
theorem exec_module_two_phase (r : LazyImports) (name : Name) :
    (importLazy r name).realExecCount = 0 ∧
      (importLazy r name).isLazyClass = true ∧
      (importLazy r name).hasSubmodAttr = true ∧
      (importLazy r name).hasCallablesAttr = true ∧
      (importLazy r name).loader = some (LoaderSt.wrapper false) ∧
      (exec_module (importLazy r name)).loader = some LoaderSt.real ∧
      (exec_module (importLazy r name)).hasSubmodAttr = false ∧
      (exec_module (importLazy r name)).isLazyClass = false ∧
      (exec_module (importLazy r name)).realExecCount =
        (importLazy r name).realExecCount + 1 ∧
      (exec_module (importLazy r name)).hasCallablesAttr = true ∧
      (exec_module (importLazy r name)).submods = (importLazy r name).submods ∧
      (exec_module (importLazy r name)).callables =
        (importLazy r name).callables :=
  ⟨rfl, rfl, rfl, rfl, rfl, rfl, rfl, rfl, rfl, rfl, rfl, rfl⟩

/-- C7 counterexample: after the subsequent (loading) `exec_module`
invocation, the `lazy+callables` bookkeeping entry is still in the
object's namespace even though the `lazy+submodules` entry is gone — the
internal lazy-bookkeeping state is not (fully) stripped as the claim
states. -/
theorem cleanup_keeps_callables_bookkeeping :
    (exec_module
          (importLazy (LazyImports.add LazyImports.init (nm "pkg:World"))
            (nm "pkg"))).hasSubmodAttr = false ∧
      (exec_module
          (importLazy (LazyImports.add LazyImports.init (nm "pkg:World"))
            (nm "pkg"))).hasCallablesAttr = true := by decide

/-- C4 (amended): the unloaded proxy's attribute-read decision order is:
the three structural markers (`__path__`, `__file__`, `__cached__`) fail
"attribute not found" *without loading* (they do not force a load); then
a name in the stored child-unit set fails without loading; then a name in
the stored lazy-symbol set yields a symbol proxy without loading; any
other name — including `__doc__`, which `__getattribute__` always diverts
into this fallback — forces a real load and is then resolved on the
loaded object. -/
theorem getattr_decision_order (m : MState) (item : Name) :
    (item ∈ structuralMarkers → getattrOutcome m item = AttrOutcome.notFound) ∧
      (item ∉ structuralMarkers → item ∈ m.submods →
        getattrOutcome m item = AttrOutcome.notFound) ∧
      (item ∉ structuralMarkers → item ∉ m.submods → item ∈ m.callables →
        getattrOutcome m item = AttrOutcome.symProxy) ∧
      (item ∉ structuralMarkers → item ∉ m.submods → item ∉ m.callables →
        getattrOutcome m item = AttrOutcome.loads) ∧
      docName ∉ structuralMarkers ∧
      (getattrOutcome m item ≠ AttrOutcome.loads → readAttr m item = (getattrOutcome m item, m)) ∧
      (getattrOutcome m item = AttrOutcome.loads →
        readAttr m item = (AttrOutcome.loads, load_module m)) := by
  refine ⟨?_, ?_, ?_, ?_, by decide, ?_, ?_⟩
  · intro h
    simp [getattrOutcome, h]
  · intro h1 h2
    simp [getattrOutcome, h1, h2]
  · intro h1 h2 h3
    simp [getattrOutcome, h1, h2, h3]
  · intro h1 h2 h3
    simp [getattrOutcome, h1, h2, h3]
  · intro h
    unfold readAttr
    cases hg : getattrOutcome m item
    · rfl
    · rfl
    · exact absurd hg h
  · intro h
    unfold readAttr
    rw [h]

/-- Witness for the amended C4: on a proxy for `pkg` with lazy symbol
`World` and child unit `sub`, the read of `World` yields a symbol proxy
and leaves the module state untouched. -/
theorem getattr_decision_order_witness :
    getattrOutcome
        (importLazy
          (LazyImports.update LazyImports.init [nm "pkg:World", nm "pkg.sub"])
          (nm "pkg")) (nm "World") = AttrOutcome.symProxy ∧
      readAttr
          (importLazy
            (LazyImports.update LazyImports.init [nm "pkg:World", nm "pkg.sub"])
            (nm "pkg")) (nm "World") =
        (getattrOutcome
          (importLazy
            (LazyImports.update LazyImports.init [nm "pkg:World", nm "pkg.sub"])
            (nm "pkg")) (nm "World"), importLazy
          (LazyImports.update LazyImports.init [nm "pkg:World", nm "pkg.sub"])
          (nm "pkg")) := by
  have h := getattr_decision_order
    (importLazy
      (LazyImports.update LazyImports.init [nm "pkg:World", nm "pkg.sub"])
      (nm "pkg")) (nm "World")
  refine ⟨h.2.2.1 (by decide) (by decide) (by decide), ?_⟩
  exact h.2.2.2.2.2.1 (by decide)

/-- C4 counterexample: reading the absent search-path marker `__path__`
on an unloaded proxy raises "attribute not found" immediately and
performs no load (the state is unchanged and the unit stays a proxy) —
it does not force a real load and re-read the slot as the claim states
for the structural/introspective slots. -/
theorem path_read_fails_without_load :
    getattrOutcome
        (importLazy (LazyImports.add LazyImports.init (nm "pkg")) (nm "pkg"))
        (nm "__path__") = AttrOutcome.notFound ∧
      readAttr
          (importLazy (LazyImports.add LazyImports.init (nm "pkg")) (nm "pkg"))
          (nm "__path__") =
        (AttrOutcome.notFound,
          importLazy (LazyImports.add LazyImports.init (nm "pkg")) (nm "pkg")) ∧
      (importLazy (LazyImports.add LazyImports.init (nm "pkg"))
          (nm "pkg")).isLazyClass = true ∧
      (importLazy (LazyImports.add LazyImports.init (nm "pkg"))
          (nm "pkg")).realExecCount = 0 := by decide

/-- C5: for every requested fully-qualified name,
if the registry does not mark it lazy the hook declines (`none`) and
triggers a parent force-load exactly when the immediate parent name is
non-empty and currently bound in `sys.modules` to an unloaded module
proxy; if the registry marks it lazy, the hook declines when default
discovery finds nothing, declines when the discovered descriptor has no
usable loader, and otherwise returns the descriptor with its loader
replaced by the deferred-loader wrapper around the original — with no
parent load in any lazy-branch case. -/
theorem find_spec_cases (reg : LazyImports) (finder : Name → Option MSpec)
    (sysm : Name → Option SysEntry) (fullname : Name) :
    (reg.mem fullname = false →
      (find_spec reg finder sysm fullname).1 = none ∧
        ((find_spec reg finder sysm fullname).2 = true ↔
          (parentName fullname ≠ [] ∧
            sysm (parentName fullname) = some SysEntry.lazyMod))) ∧
      (reg.mem fullname = true → finder fullname = none →
        find_spec reg finder sysm fullname = (none, false)) ∧
      (reg.mem fullname = true → ∀ spec, finder fullname = some spec →
        spec.loaderL = none → find_spec reg finder sysm fullname = (none, false)) ∧
      (reg.mem fullname = true → ∀ spec, finder fullname = some spec →
        ∀ l, spec.loaderL = some l →
          find_spec reg finder sysm fullname =
            (some ⟨some (PLoader.wrapped l)⟩, false)) := by
  refine ⟨?_, ?_, ?_, ?_⟩
  · intro h
    unfold find_spec
    rw [h, if_neg (show ¬ (false = true) by simp)]
    refine ⟨rfl, ?_⟩
    unfold load_parent_triggers
    by_cases hp : parentName fullname = []
    · simp [hp]
    · rw [if_neg hp]
      cases hs : sysm (parentName fullname) with
      | none => simp [hp, hs]
      | some entry => cases entry <;> simp [hp, hs]
  · intro h hf
    unfold find_spec
    rw [h, hf]
    rfl
  · intro h spec hf hl
    unfold find_spec
    rw [h, hf]
    simp [hl]
  · intro h spec hf l hl
    unfold find_spec
    rw [h, hf]
    simp [hl]

/-- Witness for C5: registry `{pkg.exporter}`, a default finder knowing
only `pkg.exporter`, and `pkg` present in `sys.modules` as a proxy; the
lazy name gets a wrapped loader, while the non-lazy sibling
`pkg.other` declines and force-loads the parent proxy `pkg`. -/
theorem find_spec_cases_witness :
    ((LazyImports.add LazyImports.init
            (nm "pkg.exporter")).mem (nm "pkg.exporter") = true ∧
        (LazyImports.add LazyImports.init
            (nm "pkg.exporter")).mem (nm "pkg.other") = false) ∧
      find_spec (LazyImports.add LazyImports.init (nm "pkg.exporter"))
          (fun n => if n = nm "pkg.exporter" then
            some ⟨some (PLoader.base 0)⟩ else none)
          (fun n => if n = nm "pkg" then some SysEntry.lazyMod else none)
          (nm "pkg.exporter") =
        (some ⟨some (PLoader.wrapped (PLoader.base 0))⟩, false) ∧
      (find_spec (LazyImports.add LazyImports.init (nm "pkg.exporter"))
          (fun n => if n = nm "pkg.exporter" then
            some ⟨some (PLoader.base 0)⟩ else none)
          (fun n => if n = nm "pkg" then some SysEntry.lazyMod else none)
          (nm "pkg.other")).1 = none ∧
      (find_spec (LazyImports.add LazyImports.init (nm "pkg.exporter"))
          (fun n => if n = nm "pkg.exporter" then
            some ⟨some (PLoader.base 0)⟩ else none)
          (fun n => if n = nm "pkg" then some SysEntry.lazyMod else none)
          (nm "pkg.other")).2 = true := by
  refine ⟨⟨by decide, by decide⟩, ?_, ?_, ?_⟩
  · exact (find_spec_cases (LazyImports.add LazyImports.init (nm "pkg.exporter"))
      (fun n => if n = nm "pkg.exporter" then
        some ⟨some (PLoader.base 0)⟩ else none)
      (fun n => if n = nm "pkg" then some SysEntry.lazyMod else none)
      (nm "pkg.exporter")).2.2.2 (by decide) _ (by simp [nm]) _ rfl
  · exact ((find_spec_cases (LazyImports.add LazyImports.init (nm "pkg.exporter"))
      (fun n => if n = nm "pkg.exporter" then
        some ⟨some (PLoader.base 0)⟩ else none)
      (fun n => if n = nm "pkg" then some SysEntry.lazyMod else none)
      (nm "pkg.other")).1 (by decide)).1
  · exact ((find_spec_cases (LazyImports.add LazyImports.init (nm "pkg.exporter"))
      (fun n => if n = nm "pkg.exporter" then
        some ⟨some (PLoader.base 0)⟩ else none)
      (fun n => if n = nm "pkg" then some SysEntry.lazyMod else none)
      (nm "pkg.other")).1 (by decide)).2.mpr ⟨by decide, by decide⟩

theorem proxyOp_selfRecursive_none {V : Type} (binding : Name → V)
    (interp : POp V → V → V) (p : SymProxy V) (op : POp V)
    (hop : selfRecursive op = true) :
    ∀ fuel, proxyOp binding interp fuel p op = none := by
  intro fuel
  induction fuel with
  | zero => rfl
  | succ f ih => simp [proxyOp, hop, ih]

/-- C1: constructing the symbol proxy for `(U, S)` performs no load; any
first *forwarding* operation force-loads `U` exactly once and returns the
host semantics of that operation applied to the real object the loaded
`U` binds to `S`, caching it; every later forwarding operation delegates
to the cached target with no further load and the same real result.  But
the shift and bitwise methods (`__rshift__`, `__lshift__`, `__and__`,
`__or__`, `__xor__`) re-invoke themselves on the proxy instead of on the
resolved target: no recursion budget ever returns a result — those
operations never load `U` and never produce the real object's result,
contradicting the claim for those operator categories. -/
theorem symbol_proxy_first_use (V : Type) (binding : Name → V)
    (interp : POp V → V → V) (r : LazyImports) (name s : Name)
    (op op2 : POp V) (hop : selfRecursive op = false)
    (hop2 : selfRecursive op2 = false) (fuel fuel2 : Nat) (other : V) :
    (mkSymProxy (V := V) (importLazy r name) s).mod = importLazy r name ∧
      (importLazy r name).realExecCount = 0 ∧
      proxyOp binding interp (fuel + 1) (mkSymProxy (importLazy r name) s) op =
        some (interp op (binding s),
          ⟨load_module (importLazy r name), s, some (binding s)⟩) ∧
      (load_module (importLazy r name)).realExecCount = 1 ∧
      proxyOp binding interp (fuel2 + 1)
          ⟨load_module (importLazy r name), s, some (binding s)⟩ op2 =
        some (interp op2 (binding s),
          ⟨load_module (importLazy r name), s, some (binding s)⟩) ∧
      (∀ f, proxyOp binding interp f (mkSymProxy (importLazy r name) s)
        (POp.rshiftP other) = none) ∧
      (∀ f, proxyOp binding interp f (mkSymProxy (importLazy r name) s)
        (POp.lshiftP other) = none) ∧
      (∀ f, proxyOp binding interp f (mkSymProxy (importLazy r name) s)
        (POp.andP other) = none) ∧
      (∀ f, proxyOp binding interp f (mkSymProxy (importLazy r name) s)
        (POp.orP other) = none) ∧
      (∀ f, proxyOp binding interp f (mkSymProxy (importLazy r name) s)
        (POp.xorP other) = none) := by
  refine ⟨rfl, rfl, ?_, rfl, ?_, ?_, ?_, ?_, ?_, ?_⟩
  · simp [proxyOp, hop, resolveObj, mkSymProxy]
  · simp [proxyOp, hop2, resolveObj]
  all_goals exact proxyOp_selfRecursive_none binding interp _ _ rfl

/-- Witness for C1 at a concrete unit, symbol, value domain and
operations (`__str__` first, `__hash__` second). -/
theorem symbol_proxy_first_use_witness :
    (selfRecursive (POp.strP : POp Nat) = false ∧
        selfRecursive (POp.hashP : POp Nat) = false) ∧
      (mkSymProxy (V := Nat) (importLazy LazyImports.init ['p']) ['w']).mod
          = importLazy LazyImports.init ['p'] ∧
        (importLazy LazyImports.init ['p']).realExecCount = 0 ∧
        proxyOp (fun _ => (0 : Nat)) (fun _ _ => 0) 1
            (mkSymProxy (importLazy LazyImports.init ['p']) ['w']) POp.strP =
          some (0,
            ⟨load_module (importLazy LazyImports.init ['p']), ['w'], some 0⟩) ∧
        (load_module (importLazy LazyImports.init ['p'])).realExecCount = 1 ∧
        proxyOp (fun _ => (0 : Nat)) (fun _ _ => 0) 1
            ⟨load_module (importLazy LazyImports.init ['p']), ['w'], some 0⟩
            POp.hashP =
          some (0,
            ⟨load_module (importLazy LazyImports.init ['p']), ['w'], some 0⟩) ∧
        (∀ f, proxyOp (fun _ => (0 : Nat)) (fun _ _ => 0) f
          (mkSymProxy (importLazy LazyImports.init ['p']) ['w'])
          (POp.rshiftP 0) = none) ∧
        (∀ f, proxyOp (fun _ => (0 : Nat)) (fun _ _ => 0) f
          (mkSymProxy (importLazy LazyImports.init ['p']) ['w'])
          (POp.lshiftP 0) = none) ∧
        (∀ f, proxyOp (fun _ => (0 : Nat)) (fun _ _ => 0) f
          (mkSymProxy (importLazy LazyImports.init ['p']) ['w'])
          (POp.andP 0) = none) ∧
        (∀ f, proxyOp (fun _ => (0 : Nat)) (fun _ _ => 0) f
          (mkSymProxy (importLazy LazyImports.init ['p']) ['w'])
          (POp.orP 0) = none) ∧
        (∀ f, proxyOp (fun _ => (0 : Nat)) (fun _ _ => 0) f
          (mkSymProxy (importLazy LazyImports.init ['p']) ['w'])
          (POp.xorP 0) = none) :=
  ⟨⟨rfl, rfl⟩,
    symbol_proxy_first_use Nat (fun _ => 0) (fun _ _ => 0) LazyImports.init
      ['p'] ['w'] POp.strP POp.hashP rfl rfl 0 0 0⟩

theorem lookup_mem {α β : Type} [BEq α] [LawfulBEq α] {l : List (α × β)}
    {a : α} {b : β} (h : l.lookup a = some b) : (a, b) ∈ l := by
  induction l with
  | nil => simp [List.lookup] at h
  | cons p l ih =>
    obtain ⟨k, v⟩ := p
    rw [List.lookup] at h
    split at h
    · rename_i heq
      injection h with h
      subst h
      have : a = k := eq_of_beq heq
      subst this
      exact List.mem_cons_self _ _
    · exact List.mem_cons_of_mem _ (ih h)

theorem heapIdsFrom_stepReg (lo : Nat) (r : RegistryH) (h : Heap)
    (hinv : HeapIdsFrom lo r h) (op : RegOp) :
    HeapIdsFrom lo (stepReg (r, h) op).1 (stepReg (r, h) op).2 ∧
      ∀ i, i < lo → (stepReg (r, h) op).2.store i = h.store i := by
  obtain ⟨hlo, hids⟩ := hinv
  cases op with
  | clearO =>
    refine ⟨⟨hlo, ?_⟩, fun i _ => rfl⟩
    intro p hp
    simp [stepReg, RegistryH.clearH] at hp
  | addO v =>
    have he : stepReg (r, h) (RegOp.addO v) = RegistryH.addH r h v := rfl
    rw [he]
    unfold RegistryH.addH
    by_cases hobj : LazyImports.specSym v = []
    · rw [if_pos hobj]
      exact ⟨⟨hlo, hids⟩, fun i _ => rfl⟩
    · rw [if_neg hobj]
      cases hl : r.objectsH.lookup (LazyImports.specMod v) with
      | some id =>
        have hid := hids _ (lookup_mem hl)
        refine ⟨⟨hlo, hids⟩, ?_⟩
        intro i hi
        have hne : i ≠ id := Nat.ne_of_lt (Nat.lt_of_lt_of_le hi hid.1)
        simp [Heap.mutateInsert, hne]
      | none =>
        refine ⟨⟨Nat.le_succ_of_le hlo, ?_⟩, ?_⟩
        · intro p hp
          rcases List.mem_cons.mp hp with rfl | hp
          · exact ⟨hlo, Nat.lt_succ_self _⟩
          · obtain ⟨h1, h2⟩ := hids p hp
            exact ⟨h1, Nat.lt_succ_of_lt h2⟩
        · intro i hi
          have hne : i ≠ h.nextId := Nat.ne_of_lt (Nat.lt_of_lt_of_le hi hlo)
          simp [Heap.alloc, hne]

theorem heap_frame_foldl (lo : Nat) (r : RegistryH) (h : Heap)
    (hinv : HeapIdsFrom lo r h) (ops : List RegOp) :
    HeapIdsFrom lo (ops.foldl stepReg (r, h)).1 (ops.foldl stepReg (r, h)).2 ∧
      ∀ i, i < lo → (ops.foldl stepReg (r, h)).2.store i = h.store i := by
  induction ops generalizing r h with
  | nil => exact ⟨hinv, fun i _ => rfl⟩
  | cons op ops ih =>
    obtain ⟨hstep, hframe⟩ := heapIdsFrom_stepReg lo r h hinv op
    rw [List.foldl_cons]
    have hpair : stepReg (r, h) op =
        ((stepReg (r, h) op).1, (stepReg (r, h) op).2) := rfl
    rw [hpair]
    obtain ⟨ha, hb⟩ := ih (stepReg (r, h) op).1 (stepReg (r, h) op).2 hstep
    refine ⟨ha, ?_⟩
    intro i hi
    rw [hb i hi, hframe i hi]

/-- C9 counterexample: register `pkg:A`; a proxy constructed now stores
the registry's set object for `pkg` (id `0`), observing `{A}`; the later
registry mutation `add("pkg:B")` goes through `setdefault`, gets the same
set object back and mutates it in place — the existing proxy's stored
lazy-symbol set now observes `{A, B}`.  A registry mutation performed
after construction does change which names the proxy treats as lazy
symbols. -/
theorem proxy_symbol_set_mutated_by_later_add :
    ((RegistryH.initH.1.addH RegistryH.initH.2 (nm "pkg:A")).1.getitemRef
        (RegistryH.initH.1.addH RegistryH.initH.2 (nm "pkg:A")).2
        (nm "pkg")).1 = 0 ∧
      ((RegistryH.initH.1.addH RegistryH.initH.2 (nm "pkg:A")).1.getitemRef
          (RegistryH.initH.1.addH RegistryH.initH.2 (nm "pkg:A")).2
          (nm "pkg")).2.store 0 = {nm "A"} ∧
      ((RegistryH.initH.1.addH RegistryH.initH.2 (nm "pkg:A")).1.addH
          ((RegistryH.initH.1.addH RegistryH.initH.2 (nm "pkg:A")).1.getitemRef
            (RegistryH.initH.1.addH RegistryH.initH.2 (nm "pkg:A")).2
            (nm "pkg")).2
          (nm "pkg:B")).2.store 0 = {nm "A", nm "B"} := by decide

/-- C9 (amended): the proxy's child-unit set is computed by value at
construction (a fresh set built by `submodule`), so no registry mutation
touches it; the lazy-symbol set, however, is the registry dict's own set
object, shared by reference — while the dict entry survives, a later
`add("unit:sym")` mutates the proxy's set in place (see the
counterexample).  Once the registry has been cleared (every scope exit
clears it), the dict no longer references the proxy's set object, and no
later sequence of adds/clears — whatever entries they create — ever
changes what the proxy observes. -/
theorem proxy_symbol_set_frozen_after_clear (r : RegistryH) (h : Heap)
    (ref : Nat) (href : ref < h.nextId) (ops : List RegOp) :
    (ops.foldl stepReg (r.clearH, h)).2.store ref = h.store ref := by
  have h0 : HeapIdsFrom h.nextId r.clearH h := by
    refine ⟨Nat.le_refl _, ?_⟩
    intro p hp
    simp [RegistryH.clearH] at hp
  exact (heap_frame_foldl h.nextId r.clearH h h0 ops).2 ref href

/-- Witness for the amended C9: the counterexample's registry, cleared,
then mutated again with `pkg:B`: the proxy's set object (id `0`) keeps
its value. -/
theorem proxy_symbol_set_frozen_after_clear_witness :
    (0 : Nat) < (RegistryH.initH.1.addH RegistryH.initH.2 (nm "pkg:A")).2.nextId ∧
      ([RegOp.addO (nm "pkg:B")].foldl stepReg
          ((RegistryH.initH.1.addH RegistryH.initH.2 (nm "pkg:A")).1.clearH,
            (RegistryH.initH.1.addH RegistryH.initH.2 (nm "pkg:A")).2)).2.store 0 =
        (RegistryH.initH.1.addH RegistryH.initH.2 (nm "pkg:A")).2.store 0 :=
  ⟨by decide,
    proxy_symbol_set_frozen_after_clear
      (RegistryH.initH.1.addH RegistryH.initH.2 (nm "pkg:A")).1
      (RegistryH.initH.1.addH RegistryH.initH.2 (nm "pkg:A")).2 0 (by decide)
      [RegOp.addO (nm "pkg:B")]⟩
